import Mathlib

/-!
# A shallow embedding of the `fluent-results` pipeline library

The embedding follows `src/Result.ts` (classes `AResult` / `Result`),
`src/ExceptionalError.ts` and `src/PromiseRejection.ts`.

Modelling conventions:

* JavaScript runtime values flowing through a pipeline (states, thrown
  values, rejection reasons) are drawn from a small universe `Val`
  (numbers, strings, booleans and `undefined`).
* A synchronous delegate either returns normally or throws; it is a pure
  function into `Except Exn α`.  `Exn.thrown v` is a user exception
  carrying value `v`; `Exn.noStateError` is the `Error` thrown by the
  `currentState` getter when the single-slot cache is empty.
* A delegate of the TypeScript union `(() => T) | ((input: TState) => T)`
  is a `Delegate`: the source dispatches on `func.length === 0`, which the
  two constructors `arity0` / `arity1` reflect.  Invoking the one-argument
  form reads `this.currentState`, whose exception is caught by the
  surrounding `try` block, exactly as in the source.
* An asynchronous delegate returns a promise whose settlement is either a
  fulfillment or a rejection: the settled outcome is `Except Val α`
  (`.error reason` = rejected).  A synchronous throw while merely invoking
  the delegate is the outer `Except Exn`.
* The reason hierarchy `AReason` / `AError` / `ExceptionalError` /
  `PromiseRejection` becomes the tagged types `Reason` / `ErrKind`; the
  `r instanceof AError` test of `isFailed` becomes `Reason.isError`.
* Object identity (the `parent` / `child` back-references created by the
  `failIf` contingency) is modelled with an arena: pipelines live in a
  list `Arena` and refer to each other by index.  A contingency routine
  receives the freshly created child pipeline and chains further
  operations onto it, so it is modelled as the list of operations (`Op`)
  it performs on that child.
-/

deriving instance DecidableEq for Except

namespace FluentResults

/-- A JavaScript runtime value, as far as the pipeline claims need one. -/
inductive Val where
  | num (n : Int)
  | str (s : String)
  | bool (b : Bool)
  | undef
deriving DecidableEq, Repr

/-- An exception escaping a delegate: either a user-thrown value, or the
`Error` thrown by the `currentState` getter on an empty cache. -/
inductive Exn where
  | thrown (v : Val)
  | noStateError
deriving DecidableEq, Repr

/-- The `AError` family: a caller-supplied domain error (`AError`
subclasses such as `TestError`), an `ExceptionalError` wrapping a caught
exception, or a `PromiseRejection` wrapping a rejection reason. -/
inductive ErrKind where
  | generic (message : String)
  | exceptional (e : Exn)
  | rejection (reason : Val)
deriving DecidableEq, Repr

/-- An `AReason`: informational, or one of the `AError` kinds. -/
inductive Reason where
  | info (message : String)
  | error (k : ErrKind)
deriving DecidableEq, Repr

/-- The `r instanceof AError` test used by `isFailed` and `errors`. -/
def Reason.isError : Reason → Bool
  | .info _ => false
  | .error _ => true

/-- The state of one `Result` object (fields of `AResult` / `Result`).
`parent` and `child` are arena indices. -/
structure Result where
  reasons : List Reason
  stateCache : List Val
  routineName : String
  parent : Option Nat
  child : Option Nat
deriving DecidableEq, Repr

namespace Result

/-- `isFailed`: at least one recorded reason is an `AError`. -/
def isFailed (r : Result) : Bool :=
  r.reasons.any Reason.isError

/-- `isSuccess`: no `AError` has been recorded. -/
def isSuccess (r : Result) : Bool :=
  !r.isFailed

/-- The `errors` getter: reasons restricted to `AError` instances. -/
def errors (r : Result) : List Reason :=
  r.reasons.filter Reason.isError

/-- The `currentState` getter: returns the single cached value, or throws
the "no state" `Error` when the cache does not hold exactly one entry. -/
def currentState (r : Result) : Except Exn Val :=
  if h : r.stateCache.length = 1 then
    .ok (r.stateCache.get ⟨0, by omega⟩)
  else
    .error Exn.noStateError

/-- `cacheState`: clear the single-slot cache and push the new value. -/
def cacheState (r : Result) (value : Val) : Result :=
  { r with stateCache := [value] }

/-- `this._reasons.push(x)`. -/
def pushReason (r : Result) (x : Reason) : Result :=
  { r with reasons := r.reasons ++ [x] }

/-- `new Result(routineName, parent)`: fresh reasons and state cache. -/
def new (routineName : String) (parent : Option Nat) : Result :=
  { reasons := [], stateCache := [], routineName := routineName
    parent := parent, child := none }

end Result

/-- A caller-supplied delegate of the union type
`(() => α) | ((input: TState) => α)`; the source dispatches on
`func.length === 0`. -/
inductive Delegate (α : Type) where
  | arity0 (f : Except Exn α)
  | arity1 (f : Val → Except Exn α)

namespace Result

/-- Invoking a delegate the way every step/gate of the source does:
`func.length === 0 ? func() : func(this.currentState)`.  Reading
`currentState` on an empty cache throws, and that exception propagates to
the invoking `try` block. -/
def invoke (r : Result) {α : Type} (f : Delegate α) : Except Exn α :=
  match f with
  | .arity0 g => g
  | .arity1 g =>
    match r.currentState with
    | .ok s => g s
    | .error e => .error e

/-- `Result.try(action, routineName)` (the sync entry point, `createFrom`
in the spec): run the action; cache its value on success, push an
`ExceptionalError` on a throw. -/
def createFrom (action : Except Exn Val) (routineName : String) : Result :=
  match action with
  | .ok v => (Result.new routineName none).cacheState v
  | .error e => (Result.new routineName none).pushReason (.error (.exceptional e))

/-- `Result.tryAsync(action, routineName)` (`createFromAsync` in the
spec): a synchronous throw while invoking the delegate becomes an
`ExceptionalError`; a rejection of the returned promise is captured by
the `.catch` handler as a `PromiseRejection`; a fulfillment is cached. -/
def createFromAsync (action : Except Exn (Except Val Val)) (routineName : String) :
    Result :=
  match action with
  | .error e => (Result.new routineName none).pushReason (.error (.exceptional e))
  | .ok (.error reason) =>
      (Result.new routineName none).pushReason (.error (.rejection reason))
  | .ok (.ok v) => (Result.new routineName none).cacheState v

/-- `Result.bind`: skipped entirely on a failed pipeline; otherwise the
delegate's value overwrites the cache, and a thrown exception is pushed
as an `ExceptionalError` leaving the cache untouched. -/
def bind (r : Result) (func : Delegate Val) : Result :=
  if r.isSuccess then
    match r.invoke func with
    | .ok out => r.cacheState out
    | .error e => r.pushReason (.error (.exceptional e))
  else r

/-- `Result.bindAsync`: like `bind`, but the promise's rejection is
captured by the `.catch` handler as a `PromiseRejection`. -/
def bindAsync (r : Result) (func : Delegate (Except Val Val)) : Result :=
  if r.isSuccess then
    match r.invoke func with
    | .ok (.ok v) => r.cacheState v
    | .ok (.error reason) => r.pushReason (.error (.rejection reason))
    | .error e => r.pushReason (.error (.exceptional e))
  else r

/-- `Result.okIf`: evaluate the predicate only on a successful pipeline;
push the supplied error when it is not `true`; push an `ExceptionalError`
instead when it throws. -/
def okIf (r : Result) (predicate : Delegate Bool) (error : ErrKind) : Result :=
  if r.isSuccess then
    match r.invoke predicate with
    | .ok pass => if !pass then r.pushReason (.error error) else r
    | .error e => r.pushReason (.error (.exceptional e))
  else r

/-- `Result.okIfAsync`: the `await` sits inside the `try` block, so a
rejection of the predicate's promise is caught by `catch (e)` and pushed
as an `ExceptionalError` wrapping the rejection reason. -/
def okIfAsync (r : Result) (predicate : Delegate (Except Val Bool)) (error : ErrKind) :
    Result :=
  if r.isSuccess then
    match r.invoke predicate with
    | .ok (.ok pass) => if !pass then r.pushReason (.error error) else r
    | .ok (.error reason) => r.pushReason (.error (.exceptional (.thrown reason)))
    | .error e => r.pushReason (.error (.exceptional e))
  else r

end Result

/-- The heap of pipeline objects; a pipeline is an index into it.
`failIf`'s contingency allocates the child at the end of the arena. -/
abbrev Arena := List Result

/-- Replace the object at index `i`, when it exists. -/
def Arena.modifyAt (a : Arena) (i : Nat) (f : Result → Result) : Arena :=
  match a[i]? with
  | some r => a.set i (f r)
  | none => a

mutual

/-- One chained operation on a pipeline — the six step/gate operations of
`Result`.  A contingency routine is the list of operations it chains onto
the child pipeline it receives. -/
inductive Op where
  | bind (func : Delegate Val)
  | bindAsync (func : Delegate (Except Val Val))
  | okIf (predicate : Delegate Bool) (error : ErrKind)
  | okIfAsync (predicate : Delegate (Except Val Bool)) (error : ErrKind)
  | failIf (predicate : Delegate Bool) (error : ErrKind)
      (contingency : Option Contingency)
  | failIfAsync (predicate : Delegate (Except Val Bool)) (error : ErrKind)
      (contingency : Option Contingency)

/-- The contingency descriptor `{func, routineName}` of `failIf`. -/
inductive Contingency where
  | mk (func : List Op) (routineName : String)

end

/-- Settling an awaited predicate promise inside the gate's `try` block:
a rejection is rethrown by `await` and caught as an exception carrying
the rejection reason. -/
def asyncSettle {α : Type} : Except Exn (Except Val α) → Except Exn α
  | .error e => .error e
  | .ok (.error reason) => .error (.thrown reason)
  | .ok (.ok v) => .ok v

mutual

/-- Run one operation on the pipeline at index `i`.  `failIf` /
`failIfAsync` with a triggering predicate and a contingency push the
supplied error, allocate the child (with `parent := i`), attach it to
`child`, and then invoke the contingency routine on the child. -/
def runOp (a : Arena) (i : Nat) : Op → Arena
  | .bind f => Arena.modifyAt a i (fun r => r.bind f)
  | .bindAsync f => Arena.modifyAt a i (fun r => r.bindAsync f)
  | .okIf p e => Arena.modifyAt a i (fun r => r.okIf p e)
  | .okIfAsync p e => Arena.modifyAt a i (fun r => r.okIfAsync p e)
  | .failIf p e c =>
    match a[i]? with
    | none => a
    | some r =>
      if r.isSuccess then
        match r.invoke p with
        | .error ex => a.set i (r.pushReason (.error (.exceptional ex)))
        | .ok fail =>
          if fail then
            match c with
            | none => a.set i (r.pushReason (.error e))
            | some (.mk ops rn) =>
                runOps
                  ((a.set i { r.pushReason (.error e) with child := some a.length })
                    ++ [Result.new rn (some i)])
                  a.length ops
          else a
      else a
  | .failIfAsync p e c =>
    match a[i]? with
    | none => a
    | some r =>
      if r.isSuccess then
        match asyncSettle (r.invoke p) with
        | .error ex => a.set i (r.pushReason (.error (.exceptional ex)))
        | .ok fail =>
          if fail then
            match c with
            | none => a.set i (r.pushReason (.error e))
            | some (.mk ops rn) =>
                runOps
                  ((a.set i { r.pushReason (.error e) with child := some a.length })
                    ++ [Result.new rn (some i)])
                  a.length ops
          else a
      else a

/-- Run a list of operations, in order, on the pipeline at index `i`. -/
def runOps (a : Arena) (i : Nat) : List Op → Arena
  | [] => a
  | op :: ops => runOps (runOp a i op) i ops

end

/-- The spec's example step `n => n + 1` on numeric states. -/
def addOneStep : Val → Except Exn Val
  | .num k => .ok (.num (k + 1))
  | v => .error (.thrown v)

/-- The spec's example predicate `n => n > 40` on numeric states. -/
def gt40Step : Val → Except Exn Bool
  | .num k => .ok (decide (40 < k))
  | _ => .ok false

/-- Running one operation at index `m` can only modify the object at `m`
and append objects past the original end of the arena; moreover it never
changes the object's `parent` or `routineName` (the source exposes no
setter for either). -/
def PreserveOp (op : Op) : Prop :=
  ∀ (a : Arena) (m : Nat),
    a.length ≤ (runOp a m op).length ∧
    (∀ k, k < a.length → k ≠ m → (runOp a m op)[k]? = a[k]?) ∧
    (∀ r, a[m]? = some r →
      ∃ r', (runOp a m op)[m]? = some r' ∧ r'.parent = r.parent ∧
        r'.routineName = r.routineName)

/-- `PreserveOp` for a whole routine. -/
def PreserveOps (ops : List Op) : Prop :=
  ∀ (a : Arena) (m : Nat),
    a.length ≤ (runOps a m ops).length ∧
    (∀ k, k < a.length → k ≠ m → (runOps a m ops)[k]? = a[k]?) ∧
    (∀ r, a[m]? = some r →
      ∃ r', (runOps a m ops)[m]? = some r' ∧ r'.parent = r.parent ∧
        r'.routineName = r.routineName)

/-! ## Helper lemmas -/

theorem set_getElem?_self {α : Type} :
    ∀ (l : List α) (i : Nat) (x : α), l[i]? = some x → l.set i x = l
  | [], _, _, h => by simp at h
  | a :: l, 0, x, h => by simp_all
  | a :: l, i + 1, x, h => by
    simp only [List.getElem?_cons_succ] at h
    simp only [List.set_cons_succ, List.cons.injEq, true_and]
    exact set_getElem?_self l i x h

theorem lt_length_of_getElem? {α : Type} {l : List α} {i : Nat} {x : α}
    (h : l[i]? = some x) : i < l.length := by
  by_contra hc
  rw [List.getElem?_eq_none (by omega)] at h
  exact Option.noConfusion h

theorem modifyAt_length (a : Arena) (i : Nat) (f : Result → Result) :
    (Arena.modifyAt a i f).length = a.length := by
  unfold Arena.modifyAt
  split <;> simp

theorem modifyAt_getElem?_ne (a : Arena) (i k : Nat) (f : Result → Result)
    (h : k ≠ i) : (Arena.modifyAt a i f)[k]? = a[k]? := by
  unfold Arena.modifyAt
  split
  · exact List.getElem?_set_ne (Ne.symm h)
  · rfl

theorem modifyAt_getElem?_self (a : Arena) (i : Nat) (f : Result → Result)
    (r : Result) (h : a[i]? = some r) :
    (Arena.modifyAt a i f)[i]? = some (f r) := by
  unfold Arena.modifyAt
  rw [h]
  exact List.getElem?_set_self (lt_length_of_getElem? h)

namespace Result

theorem pushReason_ident (r : Result) (x : Reason) :
    (r.pushReason x).parent = r.parent ∧
    (r.pushReason x).routineName = r.routineName ∧
    (r.pushReason x).stateCache = r.stateCache ∧
    (r.pushReason x).child = r.child ∧
    (r.pushReason x).reasons = r.reasons ++ [x] :=
  ⟨rfl, rfl, rfl, rfl, rfl⟩

theorem bind_ident (r : Result) (f : Delegate Val) :
    (r.bind f).parent = r.parent ∧ (r.bind f).routineName = r.routineName := by
  unfold Result.bind
  split
  · split <;> exact ⟨rfl, rfl⟩
  · exact ⟨rfl, rfl⟩

theorem bindAsync_ident (r : Result) (f : Delegate (Except Val Val)) :
    (r.bindAsync f).parent = r.parent ∧
    (r.bindAsync f).routineName = r.routineName := by
  unfold Result.bindAsync
  split
  · split <;> exact ⟨rfl, rfl⟩
  · exact ⟨rfl, rfl⟩

theorem okIf_ident (r : Result) (p : Delegate Bool) (e : ErrKind) :
    (r.okIf p e).parent = r.parent ∧ (r.okIf p e).routineName = r.routineName := by
  unfold Result.okIf
  split
  · split
    · split <;> exact ⟨rfl, rfl⟩
    · exact ⟨rfl, rfl⟩
  · exact ⟨rfl, rfl⟩

theorem okIfAsync_ident (r : Result) (p : Delegate (Except Val Bool)) (e : ErrKind) :
    (r.okIfAsync p e).parent = r.parent ∧
    (r.okIfAsync p e).routineName = r.routineName := by
  unfold Result.okIfAsync
  split
  · split
    · split <;> exact ⟨rfl, rfl⟩
    · exact ⟨rfl, rfl⟩
    · exact ⟨rfl, rfl⟩
  · exact ⟨rfl, rfl⟩

theorem isSuccess_false_of_isFailed {r : Result} (h : r.isFailed = true) :
    r.isSuccess = false := by
  simp [Result.isSuccess, h]

theorem bind_of_failed {r : Result} (f : Delegate Val) (h : r.isFailed = true) :
    r.bind f = r := by
  unfold Result.bind
  rw [isSuccess_false_of_isFailed h]
  rfl

theorem bindAsync_of_failed {r : Result} (f : Delegate (Except Val Val))
    (h : r.isFailed = true) : r.bindAsync f = r := by
  unfold Result.bindAsync
  rw [isSuccess_false_of_isFailed h]
  rfl

theorem okIf_of_failed {r : Result} (p : Delegate Bool) (e : ErrKind)
    (h : r.isFailed = true) : r.okIf p e = r := by
  unfold Result.okIf
  rw [isSuccess_false_of_isFailed h]
  rfl

theorem okIfAsync_of_failed {r : Result} (p : Delegate (Except Val Bool))
    (e : ErrKind) (h : r.isFailed = true) : r.okIfAsync p e = r := by
  unfold Result.okIfAsync
  rw [isSuccess_false_of_isFailed h]
  rfl

theorem isFailed_pushError (r : Result) (k : ErrKind) :
    (r.pushReason (.error k)).isFailed = true := by
  simp [Result.isFailed, Result.pushReason, Reason.isError]

end Result

theorem preserve_modifyAt (g : Result → Result)
    (hg : ∀ r, (g r).parent = r.parent ∧ (g r).routineName = r.routineName)
    (a : Arena) (m : Nat) :
    a.length ≤ (Arena.modifyAt a m g).length ∧
    (∀ k, k < a.length → k ≠ m → (Arena.modifyAt a m g)[k]? = a[k]?) ∧
    (∀ r, a[m]? = some r →
      ∃ r', (Arena.modifyAt a m g)[m]? = some r' ∧ r'.parent = r.parent ∧
        r'.routineName = r.routineName) := by
  refine ⟨by rw [modifyAt_length], fun k _ hk => modifyAt_getElem?_ne a m k g hk,
    fun r h => ⟨g r, modifyAt_getElem?_self a m g r h, (hg r).1, (hg r).2⟩⟩

/-! ### Unfolding lemmas for the interpreter -/

theorem runOp_bind (a : Arena) (m : Nat) (f : Delegate Val) :
    runOp a m (.bind f) = Arena.modifyAt a m (fun r => r.bind f) := by
  rw [runOp]

theorem runOp_bindAsync (a : Arena) (m : Nat) (f : Delegate (Except Val Val)) :
    runOp a m (.bindAsync f) = Arena.modifyAt a m (fun r => r.bindAsync f) := by
  rw [runOp]

theorem runOp_okIf (a : Arena) (m : Nat) (p : Delegate Bool) (e : ErrKind) :
    runOp a m (.okIf p e) = Arena.modifyAt a m (fun r => r.okIf p e) := by
  rw [runOp]

theorem runOp_okIfAsync (a : Arena) (m : Nat) (p : Delegate (Except Val Bool))
    (e : ErrKind) :
    runOp a m (.okIfAsync p e) = Arena.modifyAt a m (fun r => r.okIfAsync p e) := by
  rw [runOp]

theorem runOp_failIf_none (a : Arena) (m : Nat) (p : Delegate Bool) (e : ErrKind)
    (c : Option Contingency) (ha : a[m]? = none) :
    runOp a m (.failIf p e c) = a := by
  rw [runOp, ha]

theorem runOp_failIf_failed (a : Arena) (m : Nat) (r : Result) (p : Delegate Bool)
    (e : ErrKind) (c : Option Contingency)
    (ha : a[m]? = some r) (hs : r.isSuccess = false) :
    runOp a m (.failIf p e c) = a := by
  rw [runOp, ha]
  simp only [hs]
  rfl

theorem runOp_failIf_throw (a : Arena) (m : Nat) (r : Result) (p : Delegate Bool)
    (e : ErrKind) (c : Option Contingency) (ex : Exn)
    (ha : a[m]? = some r) (hs : r.isSuccess = true) (hp : r.invoke p = .error ex) :
    runOp a m (.failIf p e c) = a.set m (r.pushReason (.error (.exceptional ex))) := by
  rw [runOp, ha]
  simp only [hs, hp, if_true]

theorem runOp_failIf_false (a : Arena) (m : Nat) (r : Result) (p : Delegate Bool)
    (e : ErrKind) (c : Option Contingency)
    (ha : a[m]? = some r) (hs : r.isSuccess = true) (hp : r.invoke p = .ok false) :
    runOp a m (.failIf p e c) = a := by
  rw [runOp, ha]
  simp only [hs, hp, if_true]
  rfl

theorem runOp_failIf_true_nocon (a : Arena) (m : Nat) (r : Result) (p : Delegate Bool)
    (e : ErrKind)
    (ha : a[m]? = some r) (hs : r.isSuccess = true) (hp : r.invoke p = .ok true) :
    runOp a m (.failIf p e none) = a.set m (r.pushReason (.error e)) := by
  rw [runOp, ha]
  simp only [hs, hp, if_true]

theorem runOp_failIf_true_con (a : Arena) (m : Nat) (r : Result) (p : Delegate Bool)
    (e : ErrKind) (ops : List Op) (rn : String)
    (ha : a[m]? = some r) (hs : r.isSuccess = true) (hp : r.invoke p = .ok true) :
    runOp a m (.failIf p e (some (.mk ops rn)))
      = runOps ((a.set m { r.pushReason (.error e) with child := some a.length })
          ++ [Result.new rn (some m)]) a.length ops := by
  rw [runOp, ha]
  simp only [hs, hp, if_true]

theorem runOp_failIfAsync_none (a : Arena) (m : Nat) (p : Delegate (Except Val Bool))
    (e : ErrKind) (c : Option Contingency) (ha : a[m]? = none) :
    runOp a m (.failIfAsync p e c) = a := by
  rw [runOp, ha]

theorem runOp_failIfAsync_failed (a : Arena) (m : Nat) (r : Result)
    (p : Delegate (Except Val Bool)) (e : ErrKind) (c : Option Contingency)
    (ha : a[m]? = some r) (hs : r.isSuccess = false) :
    runOp a m (.failIfAsync p e c) = a := by
  rw [runOp, ha]
  simp only [hs]
  rfl

theorem runOp_failIfAsync_throw (a : Arena) (m : Nat) (r : Result)
    (p : Delegate (Except Val Bool)) (e : ErrKind) (c : Option Contingency) (ex : Exn)
    (ha : a[m]? = some r) (hs : r.isSuccess = true)
    (hp : asyncSettle (r.invoke p) = .error ex) :
    runOp a m (.failIfAsync p e c)
      = a.set m (r.pushReason (.error (.exceptional ex))) := by
  rw [runOp, ha]
  simp only [hs, hp, if_true]

theorem runOp_failIfAsync_false (a : Arena) (m : Nat) (r : Result)
    (p : Delegate (Except Val Bool)) (e : ErrKind) (c : Option Contingency)
    (ha : a[m]? = some r) (hs : r.isSuccess = true)
    (hp : asyncSettle (r.invoke p) = .ok false) :
    runOp a m (.failIfAsync p e c) = a := by
  rw [runOp, ha]
  simp only [hs, hp, if_true]
  rfl

theorem runOp_failIfAsync_true_nocon (a : Arena) (m : Nat) (r : Result)
    (p : Delegate (Except Val Bool)) (e : ErrKind)
    (ha : a[m]? = some r) (hs : r.isSuccess = true)
    (hp : asyncSettle (r.invoke p) = .ok true) :
    runOp a m (.failIfAsync p e none) = a.set m (r.pushReason (.error e)) := by
  rw [runOp, ha]
  simp only [hs, hp, if_true]

theorem runOp_failIfAsync_true_con (a : Arena) (m : Nat) (r : Result)
    (p : Delegate (Except Val Bool)) (e : ErrKind) (ops : List Op) (rn : String)
    (ha : a[m]? = some r) (hs : r.isSuccess = true)
    (hp : asyncSettle (r.invoke p) = .ok true) :
    runOp a m (.failIfAsync p e (some (.mk ops rn)))
      = runOps ((a.set m { r.pushReason (.error e) with child := some a.length })
          ++ [Result.new rn (some m)]) a.length ops := by
  rw [runOp, ha]
  simp only [hs, hp, if_true]

theorem runOps_nil (a : Arena) (m : Nat) : runOps a m [] = a := by
  rw [runOps]

theorem runOps_cons (a : Arena) (m : Nat) (op : Op) (ops : List Op) :
    runOps a m (op :: ops) = runOps (runOp a m op) m ops := by
  rw [runOps]

/-- Strong induction on the size of an operation tree: every operation
preserves the arena outside the operated index and never changes
`parent` or `routineName` at the operated index. -/
theorem preserve_all : ∀ n : Nat,
    (∀ op : Op, sizeOf op ≤ n → PreserveOp op) ∧
    (∀ ops : List Op, sizeOf ops ≤ n → PreserveOps ops) := by
  intro n
  induction n with
  | zero =>
    constructor
    · intro op h
      exfalso
      cases op <;> simp at h
    · intro ops h
      exfalso
      cases ops <;> simp at h
  | succ n ih =>
    obtain ⟨ihOp, ihOps⟩ := ih
    constructor
    · intro op hop
      cases op with
      | bind f =>
        intro a m
        rw [runOp_bind]
        exact preserve_modifyAt _ (fun r => Result.bind_ident r f) a m
      | bindAsync f =>
        intro a m
        rw [runOp_bindAsync]
        exact preserve_modifyAt _ (fun r => Result.bindAsync_ident r f) a m
      | okIf p e =>
        intro a m
        rw [runOp_okIf]
        exact preserve_modifyAt _ (fun r => Result.okIf_ident r p e) a m
      | okIfAsync p e =>
        intro a m
        rw [runOp_okIfAsync]
        exact preserve_modifyAt _ (fun r => Result.okIfAsync_ident r p e) a m
      | failIf p e c =>
        intro a m
        rcases ha : a[m]? with _ | r
        · rw [runOp_failIf_none a m p e c ha]
          refine ⟨le_rfl, fun _ _ _ => rfl, fun r h => ?_⟩
          exact Option.noConfusion h
        · by_cases hs : r.isSuccess
          · cases hp : r.invoke p with
            | error ex =>
              rw [runOp_failIf_throw a m r p e c ex ha hs hp]
              refine ⟨by rw [List.length_set],
                fun k _ hkm => List.getElem?_set_ne (Ne.symm hkm), fun r0 h0 => ?_⟩
              obtain rfl : r = r0 := Option.some.inj h0
              exact ⟨_, List.getElem?_set_self (lt_length_of_getElem? ha), rfl, rfl⟩
            | ok fail =>
              cases fail with
              | false =>
                rw [runOp_failIf_false a m r p e c ha hs hp]
                refine ⟨le_rfl, fun _ _ _ => rfl, fun r0 h0 => ?_⟩
                obtain rfl : r = r0 := Option.some.inj h0
                exact ⟨r, ha, rfl, rfl⟩
              | true =>
                cases c with
                | none =>
                  rw [runOp_failIf_true_nocon a m r p e ha hs hp]
                  refine ⟨by rw [List.length_set],
                    fun k _ hkm => List.getElem?_set_ne (Ne.symm hkm),
                    fun r0 h0 => ?_⟩
                  obtain rfl : r = r0 := Option.some.inj h0
                  exact ⟨_, List.getElem?_set_self (lt_length_of_getElem? ha),
                    rfl, rfl⟩
                | some con =>
                  cases con with
                  | mk ops rn =>
                    have hm_lt : m < a.length := lt_length_of_getElem? ha
                    have hops_n : sizeOf ops ≤ n := by
                      simp at hop
                      omega
                    rw [runOp_failIf_true_con a m r p e ops rn ha hs hp]
                    obtain ⟨Plen, Pne, _⟩ := ihOps ops hops_n
                      ((a.set m { r.pushReason (.error e) with child := some a.length })
                        ++ [Result.new rn (some m)]) a.length
                    have ha2len :
                        ((a.set m { r.pushReason (.error e) with child := some a.length })
                          ++ [Result.new rn (some m)]).length = a.length + 1 := by
                      simp
                    refine ⟨?_, fun k hk hkm => ?_, fun r0 h0 => ?_⟩
                    · omega
                    · rw [Pne k (by omega) (by omega)]
                      rw [List.getElem?_append_left (by rw [List.length_set]; omega)]
                      exact List.getElem?_set_ne (Ne.symm hkm)
                    · obtain rfl : r = r0 := Option.some.inj h0
                      refine ⟨{ r.pushReason (.error e) with child := some a.length },
                        ?_, rfl, rfl⟩
                      rw [Pne m (by omega) (by omega)]
                      rw [List.getElem?_append_left (by rw [List.length_set]; omega)]
                      exact List.getElem?_set_self hm_lt
          · rw [runOp_failIf_failed a m r p e c ha (by simpa using hs)]
            refine ⟨le_rfl, fun _ _ _ => rfl, fun r0 h0 => ?_⟩
            obtain rfl : r = r0 := Option.some.inj h0
            exact ⟨r, ha, rfl, rfl⟩
      | failIfAsync p e c =>
        intro a m
        rcases ha : a[m]? with _ | r
        · rw [runOp_failIfAsync_none a m p e c ha]
          refine ⟨le_rfl, fun _ _ _ => rfl, fun r h => ?_⟩
          exact Option.noConfusion h
        · by_cases hs : r.isSuccess
          · cases hp : asyncSettle (r.invoke p) with
            | error ex =>
              rw [runOp_failIfAsync_throw a m r p e c ex ha hs hp]
              refine ⟨by rw [List.length_set],
                fun k _ hkm => List.getElem?_set_ne (Ne.symm hkm), fun r0 h0 => ?_⟩
              obtain rfl : r = r0 := Option.some.inj h0
              exact ⟨_, List.getElem?_set_self (lt_length_of_getElem? ha), rfl, rfl⟩
            | ok fail =>
              cases fail with
              | false =>
                rw [runOp_failIfAsync_false a m r p e c ha hs hp]
                refine ⟨le_rfl, fun _ _ _ => rfl, fun r0 h0 => ?_⟩
                obtain rfl : r = r0 := Option.some.inj h0
                exact ⟨r, ha, rfl, rfl⟩
              | true =>
                cases c with
                | none =>
                  rw [runOp_failIfAsync_true_nocon a m r p e ha hs hp]
                  refine ⟨by rw [List.length_set],
                    fun k _ hkm => List.getElem?_set_ne (Ne.symm hkm),
                    fun r0 h0 => ?_⟩
                  obtain rfl : r = r0 := Option.some.inj h0
                  exact ⟨_, List.getElem?_set_self (lt_length_of_getElem? ha),
                    rfl, rfl⟩
                | some con =>
                  cases con with
                  | mk ops rn =>
                    have hm_lt : m < a.length := lt_length_of_getElem? ha
                    have hops_n : sizeOf ops ≤ n := by
                      simp at hop
                      omega
                    rw [runOp_failIfAsync_true_con a m r p e ops rn ha hs hp]
                    obtain ⟨Plen, Pne, _⟩ := ihOps ops hops_n
                      ((a.set m { r.pushReason (.error e) with child := some a.length })
                        ++ [Result.new rn (some m)]) a.length
                    have ha2len :
                        ((a.set m { r.pushReason (.error e) with child := some a.length })
                          ++ [Result.new rn (some m)]).length = a.length + 1 := by
                      simp
                    refine ⟨?_, fun k hk hkm => ?_, fun r0 h0 => ?_⟩
                    · omega
                    · rw [Pne k (by omega) (by omega)]
                      rw [List.getElem?_append_left (by rw [List.length_set]; omega)]
                      exact List.getElem?_set_ne (Ne.symm hkm)
                    · obtain rfl : r = r0 := Option.some.inj h0
                      refine ⟨{ r.pushReason (.error e) with child := some a.length },
                        ?_, rfl, rfl⟩
                      rw [Pne m (by omega) (by omega)]
                      rw [List.getElem?_append_left (by rw [List.length_set]; omega)]
                      exact List.getElem?_set_self hm_lt
          · rw [runOp_failIfAsync_failed a m r p e c ha (by simpa using hs)]
            refine ⟨le_rfl, fun _ _ _ => rfl, fun r0 h0 => ?_⟩
            obtain rfl : r = r0 := Option.some.inj h0
            exact ⟨r, ha, rfl, rfl⟩
    · intro ops hops
      cases ops with
      | nil =>
        intro a m
        rw [runOps_nil]
        exact ⟨le_rfl, fun _ _ _ => rfl, fun r h => ⟨r, h, rfl, rfl⟩⟩
      | cons op ops2 =>
        have h1 : sizeOf op ≤ n := by
          simp at hops
          omega
        have h2 : sizeOf ops2 ≤ n := by
          simp at hops
          omega
        intro a m
        rw [runOps_cons]
        obtain ⟨q1, q2, q3⟩ := ihOp op h1 a m
        obtain ⟨w1, w2, w3⟩ := ihOps ops2 h2 (runOp a m op) m
        refine ⟨le_trans q1 w1, fun k hk hkm => ?_, fun r h => ?_⟩
        · rw [w2 k (lt_of_lt_of_le hk q1) hkm, q2 k hk hkm]
        · obtain ⟨r2, hr2, hp2, hn2⟩ := q3 r h
          obtain ⟨r3, hr3, hp3, hn3⟩ := w3 r2 hr2
          exact ⟨r3, hr3, hp3.trans hp2, hn3.trans hn2⟩

/-- Every contingency routine preserves the arena outside its own
pipeline's index, and never changes `parent` or `routineName`. -/
theorem preserveOps_total (ops : List Op) : PreserveOps ops :=
  (preserve_all (sizeOf ops)).2 ops le_rfl

/-! ## The claims -/

/-- C2: for every pipeline, `isFailed` holds exactly when the reasons
sequence contains at least one error-kind reason, and `isSuccess` is the
negation of `isFailed`. -/
theorem C2_isFailed_iff_error_reason (r : Result) :
    (r.isFailed = true ↔ ∃ x ∈ r.reasons, x.isError = true) ∧
    r.isSuccess = !r.isFailed := by
  refine ⟨?_, rfl⟩
  simp [Result.isFailed, List.any_eq_true]

/-- C3: on a successful pipeline `bind` invokes the one-argument step with
the cached state; when the step returns normally the returned value
overwrites the state cache and the pipeline stays successful; in
particular `createFrom(() => 42).bind(n => n+1).currentState === 43`. -/
theorem C3_bind_success_overwrites_state (r : Result) (g : Val → Except Exn Val)
    (s v : Val) (hs : r.isSuccess = true) (hc : r.stateCache = [s])
    (hg : g s = .ok v) :
    r.bind (.arity1 g) = r.cacheState v ∧
    (r.bind (.arity1 g)).stateCache = [v] ∧
    (r.bind (.arity1 g)).isSuccess = true ∧
    ((Result.createFrom (.ok (.num 42)) "root").bind
      (.arity1 addOneStep)).currentState = .ok (.num 43) ∧
    ((Result.createFrom (.ok (.num 42)) "root").bind
      (.arity1 addOneStep)).isSuccess = true := by
  have hinv : r.invoke (Delegate.arity1 g) = .ok v := by
    simp [Result.invoke, Result.currentState, hc, hg]
  have hb : r.bind (.arity1 g) = r.cacheState v := by
    simp [Result.bind, hs, hinv]
  refine ⟨hb, by rw [hb]; rfl, by rw [hb]; exact hs, by decide, by decide⟩

/-- C3 witness: the concrete pipeline `createFrom(() => 42).bind(n => n+1)`
ends with state `43`. -/
theorem C3_witness :
    ((Result.createFrom (.ok (.num 42)) "root").bind
      (.arity1 addOneStep)).stateCache = [.num 43] :=
  (C3_bind_success_overwrites_state (Result.createFrom (.ok (.num 42)) "root")
    addOneStep (.num 42) (.num 43) rfl rfl rfl).2.1

/-- C4: on a successful pipeline a throwing `bind` step appends an
`ExceptionalError` (failing the pipeline) and leaves the state cache
untouched, so `currentState` still returns the last cached value; in
particular `createFrom(() => 42).bind(throw)` has `isFailed` and
`currentState === 42`. -/
theorem C4_bind_throw_keeps_state (r : Result) (f : Delegate Val) (e : Exn)
    (hs : r.isSuccess = true) (hf : r.invoke f = .error e) :
    r.bind f = r.pushReason (.error (.exceptional e)) ∧
    (r.bind f).isFailed = true ∧
    (r.bind f).stateCache = r.stateCache ∧
    (r.bind f).currentState = r.currentState ∧
    ((Result.createFrom (.ok (.num 42)) "root").bind
      (.arity0 (.error (.thrown (Val.str "boom"))))).isFailed = true ∧
    ((Result.createFrom (.ok (.num 42)) "root").bind
      (.arity0 (.error (.thrown (Val.str "boom"))))).currentState
        = .ok (.num 42) := by
  have hb : r.bind f = r.pushReason (.error (.exceptional e)) := by
    simp [Result.bind, hs, hf]
  refine ⟨hb, by rw [hb]; exact Result.isFailed_pushError r _,
    by rw [hb]; rfl, by rw [hb]; rfl, by decide, by decide⟩

/-- C4 witness: the concrete throwing step on `createFrom(() => 42)`
keeps the cached `42`. -/
theorem C4_witness :
    ((Result.createFrom (.ok (.num 42)) "root").bind
      (.arity0 (.error (.thrown (Val.str "boom"))))).stateCache
      = (Result.createFrom (.ok (.num 42)) "root").stateCache :=
  (C4_bind_throw_keeps_state (Result.createFrom (.ok (.num 42)) "root")
    (.arity0 (.error (.thrown (Val.str "boom")))) (.thrown (Val.str "boom"))
    rfl rfl).2.2.1

/-- C5: `okIf` evaluates its predicate only on a currently successful
pipeline (a failed pipeline is returned unchanged for every predicate);
when the predicate evaluates, the supplied error is appended exactly when
the value is not `true`; and the state cache is never changed. -/
theorem C5_okIf_gate :
    (∀ (r : Result) (p : Delegate Bool) (e : ErrKind),
      r.isFailed = true → r.okIf p e = r) ∧
    (∀ (r : Result) (p : Delegate Bool) (e : ErrKind) (pass : Bool),
      r.isSuccess = true → r.invoke p = .ok pass →
      r.okIf p e = if pass then r else r.pushReason (.error e)) ∧
    (∀ (r : Result) (p : Delegate Bool) (e : ErrKind),
      r.isSuccess = true → r.invoke p = .ok false →
      (r.okIf p e).isFailed = true) ∧
    (∀ (r : Result) (p : Delegate Bool) (e : ErrKind),
      (r.okIf p e).stateCache = r.stateCache) := by
  have h2 : ∀ (r : Result) (p : Delegate Bool) (e : ErrKind) (pass : Bool),
      r.isSuccess = true → r.invoke p = .ok pass →
      r.okIf p e = if pass then r else r.pushReason (.error e) := by
    intro r p e pass hs hp
    cases pass <;> simp [Result.okIf, hs, hp]
  refine ⟨fun r p e hf => Result.okIf_of_failed p e hf, h2,
    fun r p e hs hp => ?_, fun r p e => ?_⟩
  · rw [h2 r p e false hs hp]
    exact Result.isFailed_pushError r _
  · unfold Result.okIf
    split
    · split
      · split <;> rfl
      · rfl
    · rfl

/-- C5 witness: a predicate evaluating to `false` on a successful pipeline
appends the supplied error. -/
theorem C5_witness :
    (Result.createFrom (.ok (.num 42)) "root").okIf (.arity0 (.ok false))
      (.generic "too big")
      = (Result.createFrom (.ok (.num 42)) "root").pushReason
          (.error (.generic "too big")) :=
  C5_okIf_gate.2.1 (Result.createFrom (.ok (.num 42)) "root")
    (.arity0 (.ok false)) (.generic "too big") false rfl rfl

/-- C8: `createFromAsync` captures a rejected operation as exactly one
`PromiseRejection` whose reason is the rejection value (so rejecting with
`"x"` yields exactly one `PromiseRejection` with reason `"x"`), whereas a
synchronous throw while invoking the delegate is an `ExceptionalError`;
the call itself is total and never throws. -/
theorem C8_createFromAsync_failure_modes (x : Val) (e : Exn) (n : String) :
    (Result.createFromAsync (.ok (.error x)) n).reasons
      = [Reason.error (.rejection x)] ∧
    (Result.createFromAsync (.ok (.error x)) n).errors
      = [Reason.error (.rejection x)] ∧
    (Result.createFromAsync (.ok (.error x)) n).isFailed = true ∧
    (Result.createFromAsync (.error e) n).reasons
      = [Reason.error (.exceptional e)] :=
  ⟨rfl, rfl, rfl, rfl⟩

/-- C9: reading `currentState` when the single-slot cache does not hold
exactly one value yields the "no state" error and never a default value —
`currentState` either returns the cached value or that one error; in
particular `createFrom(() => { throw ... }).currentState` raises it. -/
theorem C9_currentState_precondition :
    (∀ r : Result, r.stateCache.length ≠ 1 →
      r.currentState = .error Exn.noStateError) ∧
    (∀ r : Result, r.currentState = .error Exn.noStateError ∨
      ∃ v, r.currentState = .ok v ∧ r.stateCache = [v]) ∧
    (∀ (e : Exn) (n : String),
      (Result.createFrom (.error e) n).currentState
        = .error Exn.noStateError) := by
  refine ⟨fun r h => ?_, fun r => ?_, fun e n => rfl⟩
  · unfold Result.currentState
    rw [dif_neg h]
  · rcases hr : r.stateCache with _ | ⟨v, _ | ⟨w, t⟩⟩
    · exact Or.inl (by simp [Result.currentState, hr])
    · exact Or.inr ⟨v, by simp [Result.currentState, hr], rfl⟩
    · exact Or.inl (by simp [Result.currentState, hr])

/-- C9 witness: an entry action that throws leaves the cache empty and
reading `currentState` raises the "no state" error. -/
theorem C9_witness :
    (Result.createFrom (.error (.thrown (Val.str "boom"))) "root").currentState
      = .error Exn.noStateError :=
  C9_currentState_precondition.1
    (Result.createFrom (.error (.thrown (Val.str "boom"))) "root") (by decide)

/-- C10: whenever the synchronous entry action returns normally (including
`undefined` for a void delegate) the returned value is cached, the cache
holds exactly one entry, and `currentState` on the resulting successful
pipeline returns it — the "no state" branch is unreachable there. -/
theorem C10_entry_normal_return_caches (v : Val) (n : String) :
    (Result.createFrom (.ok v) n).stateCache = [v] ∧
    (Result.createFrom (.ok v) n).isSuccess = true ∧
    (Result.createFrom (.ok v) n).currentState = .ok v ∧
    (Result.createFrom (.ok Val.undef) n).currentState = .ok Val.undef :=
  ⟨rfl, rfl, rfl, rfl⟩


/-- C1: every step/gate operation (`bind`, `bindAsync`, `okIf`,
`okIfAsync`, `failIf`, `failIfAsync`) on an already-failed pipeline leaves
the whole arena unchanged, whatever the delegate or predicate would do —
reasons and state cache are identical before and after, no contingency is
spawned, and the pipeline can never go back from failed to successful. -/
theorem C1_failed_pipeline_noop (a : Arena) (i : Nat) (r : Result) (op : Op)
    (h : a[i]? = some r) (hf : r.isFailed = true) :
    runOp a i op = a ∧
    (∀ r2, (runOp a i op)[i]? = some r2 → r2.isFailed = true) := by
  have hmod : ∀ g : Result → Result, g r = r → Arena.modifyAt a i g = a := by
    intro g hg
    unfold Arena.modifyAt
    rw [h]
    show a.set i (g r) = a
    rw [hg]
    exact set_getElem?_self a i r h
  have hsf : r.isSuccess = false := Result.isSuccess_false_of_isFailed hf
  have heq : runOp a i op = a := by
    cases op with
    | bind f =>
      rw [runOp_bind]
      exact hmod _ (Result.bind_of_failed f hf)
    | bindAsync f =>
      rw [runOp_bindAsync]
      exact hmod _ (Result.bindAsync_of_failed f hf)
    | okIf p e =>
      rw [runOp_okIf]
      exact hmod _ (Result.okIf_of_failed p e hf)
    | okIfAsync p e =>
      rw [runOp_okIfAsync]
      exact hmod _ (Result.okIfAsync_of_failed p e hf)
    | failIf p e c =>
      exact runOp_failIf_failed a i r p e c h hsf
    | failIfAsync p e c =>
      exact runOp_failIfAsync_failed a i r p e c h hsf
  refine ⟨heq, fun r2 h2 => ?_⟩
  rw [heq, h] at h2
  obtain rfl : r = r2 := Option.some.inj h2
  exact hf

/-- C1 witness: a `bind` on a concrete failed pipeline leaves the arena
unchanged. -/
theorem C1_witness :
    runOp [Result.createFrom (.error (.thrown (Val.str "x"))) "root"] 0
      (.bind (.arity0 (.ok Val.undef)))
      = [Result.createFrom (.error (.thrown (Val.str "x"))) "root"] :=
  (C1_failed_pipeline_noop
    [Result.createFrom (.error (.thrown (Val.str "x"))) "root"] 0
    (Result.createFrom (.error (.thrown (Val.str "x"))) "root")
    (.bind (.arity0 (.ok Val.undef))) rfl (by decide)).1

/-- C6: when `failIf`'s predicate legitimately evaluates to `true` on a
successful pipeline and a contingency descriptor was supplied, the
supplied error is appended (the pipeline becomes failed), a child pipeline
carrying the descriptor's routine name and this pipeline as parent is
allocated and attached to `child`, and the contingency routine is invoked
on that child; afterwards `child` is defined and `child.parent` is exactly
the pipeline that created it. -/
theorem C6_failIf_spawns_contingency (a : Arena) (i : Nat) (r : Result)
    (p : Delegate Bool) (err : ErrKind) (ops : List Op) (rn : String)
    (h : a[i]? = some r) (hs : r.isSuccess = true) (hp : r.invoke p = .ok true) :
    runOp a i (.failIf p err (some (.mk ops rn)))
      = runOps ((a.set i { r.pushReason (.error err) with child := some a.length })
          ++ [Result.new rn (some i)]) a.length ops ∧
    (∃ ri, (runOp a i (.failIf p err (some (.mk ops rn))))[i]? = some ri ∧
      ri.child = some a.length ∧ ri.isFailed = true ∧
      Reason.error err ∈ ri.reasons) ∧
    (∃ rj, (runOp a i (.failIf p err (some (.mk ops rn))))[a.length]? = some rj ∧
      rj.parent = some i ∧ rj.routineName = rn) := by
  have hi_lt : i < a.length := lt_length_of_getElem? h
  have hrun := runOp_failIf_true_con a i r p err ops rn h hs hp
  obtain ⟨Plen, Pne, Pm⟩ := preserveOps_total ops
    ((a.set i { r.pushReason (.error err) with child := some a.length })
      ++ [Result.new rn (some i)]) a.length
  have ha2len :
      ((a.set i { r.pushReason (.error err) with child := some a.length })
        ++ [Result.new rn (some i)]).length = a.length + 1 := by
    simp
  have ha2i :
      ((a.set i { r.pushReason (.error err) with child := some a.length })
        ++ [Result.new rn (some i)])[i]?
        = some { r.pushReason (.error err) with child := some a.length } := by
    rw [List.getElem?_append_left (by rw [List.length_set]; omega)]
    exact List.getElem?_set_self hi_lt
  have ha2j :
      ((a.set i { r.pushReason (.error err) with child := some a.length })
        ++ [Result.new rn (some i)])[a.length]?
        = some (Result.new rn (some i)) := by
    have h2 := List.getElem?_concat_length
      (a.set i { r.pushReason (.error err) with child := some a.length })
      (Result.new rn (some i))
    rw [List.length_set] at h2
    exact h2
  refine ⟨hrun, ?_, ?_⟩
  · refine ⟨{ r.pushReason (.error err) with child := some a.length },
      ?_, rfl, ?_, ?_⟩
    · rw [hrun, Pne i (by omega) (by omega)]
      exact ha2i
    · exact Result.isFailed_pushError r _
    · simp [Result.pushReason]
  · obtain ⟨rj, hrj, hpar, hrn⟩ := Pm (Result.new rn (some i)) ha2j
    exact ⟨rj, by rw [hrun]; exact hrj, hpar, hrn⟩

/-- C6 witness: on a pipeline with state `42` and predicate `n > 40`, the
contingency child exists at the freshly allocated index and its parent is
the original pipeline. -/
theorem C6_witness :
    ∃ rj, (runOp [Result.createFrom (.ok (.num 42)) "root"] 0
      (.failIf (.arity1 gt40Step) (.generic "too big")
        (some (.mk [.bind (.arity0 (.ok (Val.str "recovered")))]
          "contingent"))))[1]? = some rj ∧
      rj.parent = some 0 ∧ rj.routineName = "contingent" :=
  (C6_failIf_spawns_contingency [Result.createFrom (.ok (.num 42)) "root"] 0
    (Result.createFrom (.ok (.num 42)) "root") (.arity1 gt40Step)
    (.generic "too big") [.bind (.arity0 (.ok (Val.str "recovered")))]
    "contingent" rfl rfl (by decide)).2.2

/-- C7: when `failIf`'s predicate throws on a successful pipeline, the
resulting pipeline is failed with a captured `ExceptionalError` appended
(and, for a fresh domain error, without the supplied domain error), the
arena gains no child pipeline, and `child` is left as it was — the
contingency routine is never invoked. -/
theorem C7_failIf_predicate_throw (a : Arena) (i : Nat) (r : Result)
    (p : Delegate Bool) (err : ErrKind) (c : Option Contingency) (ex : Exn)
    (h : a[i]? = some r) (hs : r.isSuccess = true) (hp : r.invoke p = .error ex) :
    runOp a i (.failIf p err c)
      = a.set i (r.pushReason (.error (.exceptional ex))) ∧
    (∃ ri, (runOp a i (.failIf p err c))[i]? = some ri ∧
      ri.isFailed = true ∧ ri.child = r.child ∧
      ri.reasons = r.reasons ++ [Reason.error (.exceptional ex)]) ∧
    (runOp a i (.failIf p err c)).length = a.length ∧
    (err ≠ .exceptional ex → Reason.error err ∉ r.reasons →
      ∀ ri, (runOp a i (.failIf p err c))[i]? = some ri →
        Reason.error err ∉ ri.reasons) := by
  have hi_lt : i < a.length := lt_length_of_getElem? h
  have hrun := runOp_failIf_throw a i r p err c ex h hs hp
  have hii : (a.set i (r.pushReason (.error (.exceptional ex))))[i]?
      = some (r.pushReason (.error (.exceptional ex))) :=
    List.getElem?_set_self hi_lt
  refine ⟨hrun,
    ⟨r.pushReason (.error (.exceptional ex)), by rw [hrun]; exact hii,
      Result.isFailed_pushError r _, rfl, rfl⟩,
    by rw [hrun, List.length_set], ?_⟩
  intro hne hmem ri hri
  rw [hrun, hii] at hri
  obtain rfl : r.pushReason (.error (.exceptional ex)) = ri :=
    Option.some.inj hri
  simp only [Result.pushReason, List.mem_append, List.mem_singleton,
    Reason.error.injEq]
  intro hor
  rcases hor with hm | hee
  · exact hmem hm
  · exact hne hee

/-- C7 witness: a concrete throwing predicate fails the pipeline with an
`ExceptionalError` and allocates no child. -/
theorem C7_witness :
    runOp [Result.createFrom (.ok (.num 42)) "root"] 0
      (.failIf (.arity0 (.error (.thrown (Val.str "boom")))) (.generic "domain")
        (some (.mk [] "contingent")))
      = [(Result.createFrom (.ok (.num 42)) "root").pushReason
          (.error (.exceptional (.thrown (Val.str "boom"))))] :=
  (C7_failIf_predicate_throw [Result.createFrom (.ok (.num 42)) "root"] 0
    (Result.createFrom (.ok (.num 42)) "root")
    (.arity0 (.error (.thrown (Val.str "boom")))) (.generic "domain")
    (some (.mk [] "contingent")) (.thrown (Val.str "boom")) rfl rfl rfl).1

end FluentResults
